import Mathlib

/-!
Shallow embedding of the multi-project routing core of the
`eclipse-cdt-cloud/vscode-clangd` extension: the two project resolution
strategies (`workspace-folder-strategy.ts`, `cmake-project-strategy.ts`),
the project service (`project-service.ts`), and the document-to-client
routing context (`clangd-context.ts`).

Modelling conventions:
* JavaScript strings are Lean `String`s; JS `startsWith` / `endsWith` /
  `length` are modelled on the underlying character list (`String.data`),
  which agrees with JS code-unit semantics on the ASCII strings involved.
* JS object identity (`===`, and `Array.includes` / `Array.indexOf` applied
  to objects) is modelled by an explicit allocation token `ref : Nat`
  carried by each object; a freshly constructed object receives a token
  distinct from every live one (`nextRef` counters).
* `vscode.LanguageClient` instances are opaque external collaborators; the
  state tracks only their identity token, the registry mapping, and the set
  of tokens that have been disposed.  Output channels, document filters and
  server options configure the external client and do not feed back into
  the routing state, so they are not part of the state.
* A JS `Map` (insertion-ordered, at most one live entry per key) is an
  association list with insertion-order `set` / `delete`.
* `async` code is single-threaded; awaiting the readiness promise is
  modelled by a `ready` flag, and a call suspended on the closed gate is
  modelled as returning `none` ("has not returned yet").
-/

namespace Clangd

/-- JS `s.startsWith(p)`: `p` is a string prefix of `s`. -/
def jsStartsWith (s p : String) : Bool := p.data.isPrefixOf s.data

/-- JS `s.endsWith(p)`: `p` is a string suffix of `s`. -/
def jsEndsWith (s p : String) : Bool := p.data.isSuffixOf s.data

/-- JS `s.length` (code units; ASCII here, so the character count). -/
def jsLength (s : String) : Nat := s.data.length

/-- JS `Map.get`: the value of the unique entry with key `k`, if any. -/
def mapGet (m : List (String × Nat)) (k : String) : Option Nat :=
  (m.find? (fun e => e.1 == k)).map (·.2)

/-- JS `Map.set`: replace the entry with key `k` in place, else append. -/
def mapSet (m : List (String × Nat)) (k : String) (v : Nat) : List (String × Nat) :=
  if m.any (fun e => e.1 == k) then m.map (fun e => if e.1 == k then (k, v) else e)
  else m ++ [(k, v)]

/-- JS `Map.delete`: drop the entry with key `k`. -/
def mapDelete (m : List (String × Nat)) (k : String) : List (String × Nat) :=
  m.filter (fun e => e.1 != k)

/-- `Project` of `src/project/api.ts`: `id`, optional `label`, `uri`
(stored as its `toString()` form).  `ref` is the JS object-identity token
(see the module docstring); it is not a source field. -/
structure Project where
  ref : Nat
  id : String
  label : Option String := none
  uri : String
deriving DecidableEq, Repr

/-- `ProjectsChange` of `src/project/api.ts`: optional `added` / `removed` /
`updated` batches. -/
structure ProjectsChange where
  added : Option (List Project) := none
  removed : Option (List Project) := none
  updated : Option (List Project) := none
deriving DecidableEq, Repr

/-- The slice of `vscode.TextDocument` the routing context reads: the uri
(scheme and `toString()` form), the language id, and the `isClosed` flag. -/
structure TextDocument where
  scheme : String
  language : String
  uriStr : String
  isClosed : Bool := false
deriving DecidableEq, Repr

/-- Language ids of `clangdDocumentSelector` in `clangd-context.ts` (every
entry also requires scheme `file`). -/
def clangdDocumentSelector : List String :=
  ["c", "cpp", "cuda-cpp", "objective-c", "objective-cpp"]

/-- `isClangdDocument` of `clangd-context.ts`: the document matches the
clangd selector (scheme `file` and one of the clangd language kinds). -/
def isClangdDocument (d : TextDocument) : Bool :=
  d.scheme == "file" && clangdDocumentSelector.contains d.language

/-- `fallbackProjectId` of `clangd-context.ts`. -/
def fallbackProjectId : String := "none"

/-- JS `Array.includes` on `Project` objects: strict (reference) equality,
i.e. equality of allocation tokens. -/
def jsIncludesProject (l : List Project) (p : Project) : Bool :=
  l.any (fun q => q.ref == p.ref)

/-- JS `Array.indexOf` on `Project` objects: first index with reference
equality, `-1` if absent. -/
def jsIndexOfProject (l : List Project) (p : Project) : Int :=
  match l.findIdx? (fun q => q.ref == p.ref) with
  | some i => (i : Int)
  | none => -1

/-- JS `Array.indexOf` on `TextDocument`s.  The editor hands out one
canonical document object per open document, so object identity coincides
with value equality of the modelled fields. -/
def jsIndexOfDocument (l : List TextDocument) (d : TextDocument) : Int :=
  match l.findIdx? (fun x => x == d) with
  | some i => (i : Int)
  | none => -1

/-- State of `ClangdContext` (`clangd-context.ts`): the client registry
(`clients : Map<string, ClangdLanguageClient>` as id-to-token pairs), the
tokens of disposed clients, `unmatchedDocuments`, `_activeProjectOverride`,
and the allocator for fresh client tokens. -/
structure ContextState where
  clients : List (String × Nat)
  disposedClients : List Nat
  unmatchedDocuments : List TextDocument
  activeProjectOverride : Option Project
  nextClientRef : Nat
deriving DecidableEq, Repr

/-- `ClangdContext.getActiveProject`: the pinned override if any, else the
service's current project (`this._activeProjectOverride ??
this.projectService.currentProject`). -/
def getActiveProject (s : ContextState) (currentProject : Option Project) : Option Project :=
  match s.activeProjectOverride with
  | some p => some p
  | none => currentProject

/-- The registry key for a project: `project?.id ?? fallbackProjectId`. -/
def projectIdOrFallback : Option Project → String
  | some p => p.id
  | none => fallbackProjectId

/-- `ClangdContext.createClient`: construct a fresh client (a fresh token),
store it in the registry under the project id (or the fallback id) and
start it.  Error handler, capability feature and document filter configure
the external client only. -/
def createClient (s : ContextState) (project : Option Project) : ContextState :=
  { s with clients := mapSet s.clients (projectIdOrFallback project) s.nextClientRef,
           nextClientRef := s.nextClientRef + 1 }

/-- `ClangdContext.disposeClient`: if the registry has an entry for `id`,
delete the entry and then dispose the client (in that source order). -/
def disposeClient (s : ContextState) (id : String) : ContextState :=
  match mapGet s.clients id with
  | some client =>
    { s with clients := mapDelete s.clients id, disposedClients := client :: s.disposedClients }
  | none => s

/-- The micro-step trace of `ClangdContext.disposeClient`: the state before,
after `this.clients.delete(id)`, and after `client.dispose()`.  When no
entry exists the call is a no-op. -/
def disposeClientTrace (s : ContextState) (id : String) : List ContextState :=
  match mapGet s.clients id with
  | some client =>
    let s1 := { s with clients := mapDelete s.clients id }
    let s2 := { s1 with disposedClients := client :: s1.disposedClients }
    [s, s1, s2]
  | none => [s]

/-- `ClangdContext.didOpenTextDocument`.  `resolve` is the (awaited) result
of `projectService.resolve(document.uri, true)` and `currentProject` the
service's current project read by `getActiveProject`. -/
def didOpenTextDocument (s : ContextState) (resolve : TextDocument → Option Project)
    (currentProject : Option Project) (document : TextDocument) : ContextState :=
  if !isClangdDocument document then s
  else
    match resolve document with
    | none =>
      let activeProject := getActiveProject s currentProject
      let s1 := if s.unmatchedDocuments.contains document then s
                else { s with unmatchedDocuments := s.unmatchedDocuments ++ [document] }
      let s2 := disposeClient s1 (projectIdOrFallback activeProject)
      createClient s2 activeProject
    | some project => createClient s (some project)

/-- JS `array.splice(start)` with a single argument: removes every element
from `start` (clamped; negative counts from the end) to the end of the
array, leaving the elements before `start`. -/
def spliceFrom (l : List TextDocument) (i : Int) : List TextDocument :=
  if i < 0 then l.take (l.length - (-i).toNat) else l.take i.toNat

/-- `ClangdContext.didCloseTextDocument`.  `resolve` is the awaited
resolution result and `workspaceTextDocuments` is
`vscode.workspace.textDocuments`. -/
def didCloseTextDocument (s : ContextState) (resolve : TextDocument → Option Project)
    (workspaceTextDocuments : List TextDocument) (document : TextDocument) : ContextState :=
  if !isClangdDocument document then s
  else
    match resolve document with
    | none =>
      let index := jsIndexOfDocument s.unmatchedDocuments document
      if index < -1 then { s with unmatchedDocuments := spliceFrom s.unmatchedDocuments index }
      else s
    | some project =>
      if (match s.activeProjectOverride with
          | some ov => ov.ref == project.ref
          | none => false) then s
      else if workspaceTextDocuments.any
          (fun d => jsStartsWith d.uriStr project.uri && !d.isClosed) then s
      else disposeClient s project.id

/-- The `onProjectsChanged` subscription installed by
`ClangdContext.activate`: reacts to removal/update of the pinned override.
Note `change.removed?.includes(...)` / `change.updated?.includes(...)`
compare by object identity, and the removal branch disposes the client via
`this.clients.get(id)?.dispose()` without deleting the registry entry. -/
def onProjectsChangedHandler (s : ContextState) (change : ProjectsChange) : ContextState :=
  match s.activeProjectOverride with
  | none => s
  | some ov =>
    if jsIncludesProject (change.removed.getD []) ov then
      let s1 := match mapGet s.clients ov.id with
                | some client => { s with disposedClients := client :: s.disposedClients }
                | none => s
      { s1 with activeProjectOverride := none }
    else if jsIncludesProject (change.updated.getD []) ov then
      let s1 := match mapGet s.clients ov.id with
                | some client => { s with disposedClients := client :: s.disposedClients }
                | none => s
      createClient s1 (some ov)
    else s

/-- The `ClangdContext.client` getter: it unconditionally throws.  Throwing
is modelled as `Except.error` with the thrown message. -/
def clientGetter (_s : ContextState) : Except String Nat :=
  Except.error "Invalid access. Context.client is currently not implemented"

/-- A registered strategy as the service sees it: its `id` and its object
identity token. -/
structure Strategy where
  ref : Nat
  id : String
deriving DecidableEq, Repr

/-- State of `ClangdProjectService` (`project-service.ts`): the strategy
registry (`strategies : Map<string, ProjectResolutionStrategy>` as
id-to-token pairs), the not-yet-registered externally declared ids
(`externalRegisteredStrategies`), whether the `onReady` promise has been
resolved, the warning log, and `_isEnabled`.  `registeredEver` is a history
variable (not a source field) recording every id that was ever successfully
registered; it only observes the run. -/
structure ServiceState where
  strategies : List (String × Nat)
  pendingExternal : List String
  ready : Bool
  registeredEver : List String
  log : List String
  isEnabled : Bool
deriving DecidableEq, Repr

/-- The `console.warn` message of the duplicate-registration branch. -/
def duplicateStrategyMsg : String :=
  "Could not register project resolution strategy. Another registry with the same id is already registered!"

/-- The pending external ids after a successful `registerStrategy` call:
`if (externalRegisteredStrategies.size > 0) externalRegisteredStrategies.delete(strategy.id)`. -/
def registerPending (st : ServiceState) (strat : Strategy) : List String :=
  if 0 < st.pendingExternal.length then st.pendingExternal.erase strat.id
  else st.pendingExternal

/-- Whether the readiness promise is resolved after a successful
`registerStrategy` call: the registration emptied a nonempty pending set
(`if (externalRegisteredStrategies.size === 0) this.resolveReady()`). -/
def registerReady (st : ServiceState) (strat : Strategy) : Bool :=
  if 0 < st.pendingExternal.length ∧ (registerPending st strat).isEmpty = true then true
  else st.ready

/-- `ClangdProjectService.registerStrategy`: if no strategy with the same id
is registered, store it, remove its id from the pending external set and
resolve the readiness promise when that set becomes empty, returning
`true`; otherwise log a warning and return `false`. -/
def registerStrategy (st : ServiceState) (strat : Strategy) : ServiceState × Bool :=
  if (mapGet st.strategies strat.id).isNone then
    ({ st with strategies := mapSet st.strategies strat.id strat.ref,
               pendingExternal := registerPending st strat,
               ready := registerReady st strat,
               registeredEver := st.registeredEver ++ [strat.id] }, true)
  else
    ({ st with log := st.log ++ [duplicateStrategyMsg] }, false)

/-- The service state right after the constructor ran: the externally
declared strategy ids (a JS `Set`, hence deduplicated) are pending, the
`onReady` promise is unresolved, nothing is registered. -/
def initialService (declared : List String) (enabled : Bool) : ServiceState :=
  { strategies := [], pendingExternal := declared.dedup, ready := false,
    registeredEver := [], log := [], isEnabled := enabled }

/-- The service-level events claim C2 ranges over: a `registerStrategy`
call, and the final statement of `initialize()` (which resolves the
readiness promise when no external id is still pending). -/
inductive ServiceEvent where
  | register (strat : Strategy)
  | initializeCompleted
deriving DecidableEq, Repr

/-- One service event applied to the state. -/
def serviceStep (st : ServiceState) : ServiceEvent → ServiceState
  | .register strat => (registerStrategy st strat).1
  | .initializeCompleted => if st.pendingExternal.isEmpty then { st with ready := true } else st

/-- A sequence of service events applied in order. -/
def serviceRun (st : ServiceState) : List ServiceEvent → ServiceState
  | [] => st
  | e :: es => serviceRun (serviceStep st e) es

/-- `ClangdProjectService.resolve`: `await this.onReady` first — while the
gate is closed the call has not returned, modelled as the outer `none`.
Once the gate is open it returns `undefined` when multi-project support is
disabled, else the active strategy's resolution (`activeResolve`). -/
def resolveService (st : ServiceState) (activeResolve : String → Option Project)
    (fileUri : String) : Option (Option Project) :=
  if st.ready then some (if st.isEnabled then activeResolve fileUri else none) else none

/-- State of `CmakeProjectStrategy` (`cmake-project-strategy.ts`): the
discovered projects, the allocator for fresh `Project` object tokens, and
the `ProjectsChange` batches fired so far. -/
structure CmakeState where
  projects : List Project
  nextRef : Nat
  events : List ProjectsChange
deriving DecidableEq, Repr

/-- JS `s.lastIndexOf(pat)`: the largest index at which `pat` occurs in
`s`, `-1` when it does not occur. -/
def jsLastIndexOf (s pat : String) : Int :=
  match ((List.range (s.data.length + 1)).filter
      (fun i => pat.data.isPrefixOf (s.data.drop i))).getLast? with
  | some i => (i : Int)
  | none => -1

/-- JS `s.substring(0, i)` (negative `i` is clamped to `0`). -/
def jsSubstringTo (s : String) (i : Int) : String :=
  if i < 0 then ⟨[]⟩ else ⟨s.data.take i.toNat⟩

/-- `vscode.Uri.file(p).toString()` for an absolute ASCII path. -/
def uriFileToString (fsPath : String) : String := "file://" ++ fsPath

/-- `uri.fsPath` of a `file://` uri produced by `uriFileToString`. -/
def uriFsPath (u : String) : String := ⟨u.data.drop 7⟩

/-- `path.basename`: the last `/`-separated segment. -/
def pathBasename (p : String) : String := ⟨(p.data.reverse.takeWhile (fun c => c != '/')).reverse⟩

/-- `CmakeProjectStrategy.getProjectDirectory`: the build directory is a
project indicator only when it directly contains `compile_commands.json`
(`fsExists` models `fs.existsSync`); the project root is the path truncated
at the last occurrence of `/build`. -/
def getProjectDirectory (fsExists : String → Bool) (buildDir : String) : Option String :=
  if fsExists (buildDir ++ "/compile_commands.json") then
    some (uriFileToString (jsSubstringTo buildDir (jsLastIndexOf buildDir "/build")))
  else none

/-- `CmakeProjectStrategy.createProject`: a freshly allocated `Project`
whose id is the uri's string form and whose label is the base name. -/
def cmakeCreateProject (ref : Nat) (projectUri : String) : Project :=
  { ref := ref, id := projectUri, label := some (pathBasename (uriFsPath projectUri)),
    uri := projectUri }

/-- The watcher's `onDidCreate` handler in
`CmakeProjectStrategy.configureFileWatcher`. -/
def cmakeOnDidCreate (s : CmakeState) (fsExists : String → Bool) (fsPath : String) : CmakeState :=
  match getProjectDirectory fsExists fsPath with
  | some projectDir =>
    let project := cmakeCreateProject s.nextRef projectDir
    { projects := s.projects ++ [project], nextRef := s.nextRef + 1,
      events := s.events ++ [{ added := some [project] }] }
  | none => s

/-- The watcher's `onDidDelete` handler in
`CmakeProjectStrategy.configureFileWatcher`: it searches the list with
`indexOf` applied to a freshly constructed `Project` (reference equality)
and, on a hit, removes with single-argument `splice(index)` (from `index`
to the end). -/
def cmakeOnDidDelete (s : CmakeState) (fsExists : String → Bool) (fsPath : String) : CmakeState :=
  match getProjectDirectory fsExists fsPath with
  | some projectDir =>
    let fresh := cmakeCreateProject s.nextRef projectDir
    let index := jsIndexOfProject s.projects fresh
    if 0 ≤ index then
      { projects := s.projects.take index.toNat, nextRef := s.nextRef + 1,
        events := s.events ++ [{ removed := some (s.projects.drop index.toNat) }] }
    else { s with nextRef := s.nextRef + 1 }
  | none => s

/-- A `vscode.WorkspaceFolder`: its `name` and its uri (`toString()` form,
without the trailing slash that vscode omits on folder uris). -/
structure WorkspaceFolder where
  name : String
  uri : String
deriving DecidableEq, Repr

/-- `WorkspaceFolderStrategy.toUri`: the folder uri's string form,
trailing-slash-normalized. -/
def toUri (f : WorkspaceFolder) : String :=
  if jsEndsWith f.uri "/" then f.uri else f.uri ++ "/"

/-- The sort comparator of `getSortedWorkspaces`:
`(a, b) => a.length - b.length`, i.e. nondecreasing length.  JS
`Array.sort` is stable, and a stable sort with this comparator is exactly
`List.insertionSort` with this relation. -/
def byLen (a b : String) : Prop := jsLength a ≤ jsLength b

instance : DecidableRel byLen := fun _ _ => Nat.decLe _ _

instance : IsTotal String byLen := ⟨fun _ _ => Nat.le_total _ _⟩

instance : IsTrans String byLen := ⟨fun _ _ _ => Nat.le_trans⟩

/-- `WorkspaceFolderStrategy.getSortedWorkspaces`: all workspace folder
locations, trailing-slash-normalized, stably sorted by length. -/
def getSortedWorkspaces (folders : List WorkspaceFolder) : List String :=
  List.insertionSort byLen (folders.map toUri)

/-- Innermost-first order on folders (by uri length, descending). -/
def byUriLenDesc (a b : WorkspaceFolder) : Prop := jsLength b.uri ≤ jsLength a.uri

instance : DecidableRel byUriLenDesc := fun _ _ => Nat.decLe _ _

instance : IsTotal WorkspaceFolder byUriLenDesc := ⟨fun _ _ => Nat.le_total _ _⟩

instance : IsTrans WorkspaceFolder byUriLenDesc := ⟨fun _ _ _ h h2 => Nat.le_trans h2 h⟩

/-- Model of the external `vscode.workspace.getWorkspaceFolder(uri)`: the
innermost workspace folder containing the uri (vscode checks the folders
sorted by path length, longest first, for a prefix match on the
slash-terminated folder root). -/
def getWorkspaceFolder (folders : List WorkspaceFolder) (u : String) : Option WorkspaceFolder :=
  (List.insertionSort byUriLenDesc folders).find? (fun f => jsStartsWith u (toUri f))

/-- Stand-in for the value of the source's `!` non-null assertion in the
(unreached on the inputs considered here) case that
`vscode.workspace.getWorkspaceFolder` returns `undefined`. -/
def junkFolder : WorkspaceFolder := { name := "", uri := "" }

/-- `WorkspaceFolderStrategy.getOuterMostWorkspaceFolder` applied to a
location string: the first entry of the length-sorted list that is a
string prefix of it, mapped back to its workspace folder. -/
def getOuterMostWorkspaceFolder (folders : List WorkspaceFolder) (sorted : List String)
    (uri : String) : WorkspaceFolder :=
  match sorted.find? (fun element => jsStartsWith uri element) with
  | some element => (getWorkspaceFolder folders element).getD junkFolder
  | none => (getWorkspaceFolder folders uri).getD junkFolder

/-- `WorkspaceFolderStrategy.createProject`: id is the folder uri's string
form, label its name.  Object identity plays no role in the folder-strategy
claims, so the token is fixed. -/
def wsCreateProject (f : WorkspaceFolder) : Project :=
  { ref := 0, id := f.uri, label := some f.name, uri := f.uri }

/-- The `projects` list built by `WorkspaceFolderStrategy.initialize`: each
entry of the length-sorted folder list is mapped to its outermost folder
and a project is pushed for it. -/
def initializeProjects (folders : List WorkspaceFolder) : List Project :=
  let sorted := getSortedWorkspaces folders
  sorted.map (fun w => wsCreateProject (getOuterMostWorkspaceFolder folders sorted w))

/-- `WorkspaceFolderStrategy.resolve` (and, identically,
`CmakeProjectStrategy.resolve`): the first project whose uri string is a
prefix of the queried location. -/
def wsResolve (projects : List Project) (fileUri : String) : Option Project :=
  projects.find? (fun project => jsStartsWith fileUri project.uri)

/-- Modelled from the spec (§4.1), for comparison with the implementation:
"the owning folder of any location is the first listed folder whose
location is a string prefix of it", over "the lexicographically-sorted-by-
length list of all workspace folder locations (as trailing-slash-normalized
strings)". -/
def specOwningFolder (folders : List WorkspaceFolder) (location : String) : Option String :=
  (getSortedWorkspaces folders).find? (fun e => jsStartsWith location e)

/-- The two-folder workspace of the spec's nested-folder scenario:
folders `/a` and `/a/sub`. -/
def foldersAB : List WorkspaceFolder :=
  [{ name := "a", uri := "file:///a" }, { name := "sub", uri := "file:///a/sub" }]

/-- A workspace exhibiting the raw-string-prefix anomaly: `/a` is a string
prefix of `/ab/...` without being a path ancestor. -/
def foldersAnomaly : List WorkspaceFolder :=
  [{ name := "a", uri := "file:///a" }, { name := "ab", uri := "file:///ab" },
   { name := "c", uri := "file:///ab/c" }]

/-- Invariant of the service state reachable from `initialService declared _`:
the pending set is duplicate-free, it holds exactly the declared ids not yet
registered, and the readiness promise is resolved only once it is empty. -/
def serviceInv (declared : List String) (st : ServiceState) : Prop :=
  st.pendingExternal.Nodup ∧
  (∀ i, i ∈ st.pendingExternal ↔ (i ∈ declared ∧ i ∉ st.registeredEver)) ∧
  (st.ready = true → st.pendingExternal = [])

/-- A routing-context state with one live client (token `5`) registered for
the project `file:///p`. -/
def c1State : ContextState :=
  { clients := [("file:///p", 5)], disposedClients := [], unmatchedDocuments := [],
    activeProjectOverride := none, nextClientRef := 6 }

/-- The project `file:///p` as resolved by the active strategy. -/
def c1Project : Project := { ref := 99, id := "file:///p", uri := "file:///p" }

/-- A clangd document inside `file:///p`. -/
def c1Doc : TextDocument := { scheme := "file", language := "cpp", uriStr := "file:///p/x.cpp" }

/-- A resolution function mapping every document to the project `file:///p`. -/
def c1Resolve : TextDocument → Option Project := fun _ => some c1Project

/-- A routing-context state in which the project `file:///p` (object token
`0`) is pinned as the active project override and has a live client. -/
def c3State : ContextState :=
  { clients := [("file:///p", 0)], disposedClients := [], unmatchedDocuments := [],
    activeProjectOverride := some { ref := 0, id := "file:///p", uri := "file:///p" },
    nextClientRef := 1 }

/-- A `ProjectsChange` whose removed list carries a freshly constructed
`Project` value (object token `1`) with the same id `file:///p`. -/
def c3Change : ProjectsChange :=
  { removed := some [{ ref := 1, id := "file:///p", uri := "file:///p" }] }

/-- A build-directory strategy state with one discovered project rooted at
`file:///proj` (object token `0`). -/
def c6State : CmakeState :=
  { projects := [{ ref := 0, id := "file:///proj", label := some "proj", uri := "file:///proj" }],
    nextRef := 1, events := [] }

/-- A file system in which `/proj/build/compile_commands.json` exists. -/
def c6Fs : String → Bool := fun p => p == "/proj/build/compile_commands.json"

/-- A routing-context state with one live client (token `0`) under key `p`. -/
def c7State : ContextState :=
  { clients := [("p", 0)], disposedClients := [], unmatchedDocuments := [],
    activeProjectOverride := none, nextClientRef := 1 }

/-- A service state in which a strategy with id `dup` (token `3`) is already
registered. -/
def c8DupState : ServiceState :=
  { strategies := [("dup", 3)], pendingExternal := [], ready := true,
    registeredEver := ["dup"], log := [], isEnabled := false }

/-- A service state with one pending externally declared strategy id `s`. -/
def c8NewState : ServiceState :=
  { strategies := [], pendingExternal := ["s"], ready := false,
    registeredEver := [], log := [], isEnabled := false }

/-- A workspace with two unrelated (non-nested) folders. -/
def foldersFlat : List WorkspaceFolder :=
  [{ name := "a", uri := "file:///a" }, { name := "b", uri := "file:///b" }]

/-! ### Auxiliary lemmas: strings and prefixes -/

theorem jsStartsWith_iff {s p : String} : jsStartsWith s p = true ↔ p.data <+: s.data :=
  List.isPrefixOf_iff_prefix

theorem jsStartsWith_self (s : String) : jsStartsWith s s = true :=
  jsStartsWith_iff.mpr (List.prefix_refl _)

theorem String.data_inj {a b : String} (h : a.data = b.data) : a = b := by
  cases a; cases b; exact congrArg String.mk h

theorem jsLength_eq (s : String) : jsLength s = s.data.length := rfl

theorem toUri_dichotomy (f : WorkspaceFolder) :
    ((toUri f).data = f.uri.data ∧ ['/'] <:+ f.uri.data) ∨
    ((toUri f).data = f.uri.data ++ ['/'] ∧ ¬ ['/'] <:+ f.uri.data) := by
  unfold toUri jsEndsWith
  by_cases h : ['/'] <:+ f.uri.data
  · left
    have hb : (("/" : String).data.isSuffixOf f.uri.data) = true :=
      List.isSuffixOf_iff_suffix.mpr h
    rw [if_pos hb]
    exact ⟨rfl, h⟩
  · right
    have hb : (("/" : String).data.isSuffixOf f.uri.data) = false := by
      cases hb2 : (("/" : String).data.isSuffixOf f.uri.data)
      · rfl
      · exact absurd (List.isSuffixOf_iff_suffix.mp hb2) h
    rw [if_neg (by simp [hb])]
    exact ⟨String.data_append _ _, h⟩

theorem toUri_ends_slash (f : WorkspaceFolder) :
    ∃ core, (toUri f).data = core ++ ['/'] := by
  rcases toUri_dichotomy f with ⟨h1, h2⟩ | ⟨h1, _⟩
  · rcases h2 with ⟨t, ht⟩
    exact ⟨t, by rw [h1, ht]⟩
  · exact ⟨f.uri.data, h1⟩

theorem uri_len_le_toUri (f : WorkspaceFolder) :
    f.uri.data.length ≤ (toUri f).data.length := by
  rcases toUri_dichotomy f with ⟨h1, _⟩ | ⟨h1, _⟩ <;> simp [h1]

theorem toUri_len_le_succ (f : WorkspaceFolder) :
    (toUri f).data.length ≤ f.uri.data.length + 1 := by
  rcases toUri_dichotomy f with ⟨h1, _⟩ | ⟨h1, _⟩ <;> simp [h1]

theorem uri_isPre_toUri (f : WorkspaceFolder) : f.uri.data <+: (toUri f).data := by
  rcases toUri_dichotomy f with ⟨h1, _⟩ | ⟨h1, _⟩
  · rw [h1]
  · rw [h1]; exact ⟨['/'], rfl⟩

theorem toUri_congr {f g : WorkspaceFolder} (h : f.uri = g.uri) : toUri f = toUri g := by
  unfold toUri
  rw [h]

theorem toUri_inj {folders : List WorkspaceFolder} (hnd : (folders.map toUri).Nodup) :
    ∀ f ∈ folders, ∀ g ∈ folders, toUri f = toUri g → f = g :=
  (List.nodup_map_iff_inj_on (List.Nodup.of_map _ hnd)).mp hnd

/-! ### Auxiliary lemmas: `find?` on sorted lists -/

theorem find?_eq_of_unique {α : Type} {l : List α} {p : α → Bool} {f : α}
    (hmem : f ∈ l) (hpf : p f = true) (huniq : ∀ x ∈ l, p x = true → x = f) :
    l.find? p = some f := by
  induction l with
  | nil => cases hmem
  | cons a t ih =>
    cases hpa : p a
    · have hne : f ≠ a := fun he => by rw [he, hpa] at hpf; cases hpf
      have hmem2 : f ∈ t := by
        rcases List.mem_cons.mp hmem with h | h
        · exact absurd h hne
        · exact h
      rw [List.find?_cons_of_neg _ (by simp [hpa])]
      exact ih hmem2 (fun x hx hp => huniq x (List.mem_cons_of_mem _ hx) hp)
    · rw [List.find?_cons_of_pos _ hpa]
      exact congrArg some (huniq a (List.mem_cons_self _ _) hpa)

theorem find?_min_key {α : Type} (key : α → Nat) {l : List α} {p : α → Bool} {e : α}
    (hs : List.Sorted (fun a b => key a ≤ key b) l) (h : l.find? p = some e) :
    ∀ x ∈ l, p x = true → key e ≤ key x := by
  induction l with
  | nil => cases h
  | cons a t ih =>
    rcases List.sorted_cons.mp hs with ⟨hhead, htail⟩
    intro x hx hp
    cases hpa : p a
    · rw [List.find?_cons_of_neg _ (by simp [hpa])] at h
      rcases List.mem_cons.mp hx with rfl | hx2
      · rw [hpa] at hp; cases hp
      · exact ih htail h x hx2 hp
    · rw [List.find?_cons_of_pos _ hpa] at h
      cases h
      rcases List.mem_cons.mp hx with rfl | hx2
      · exact Nat.le_refl _
      · exact hhead x hx2

theorem find?_max_first {α : Type} (key : α → Nat) {l : List α} {p : α → Bool} {f : α}
    (hs : List.Sorted (fun a b => key b ≤ key a) l) (hmem : f ∈ l) (hpf : p f = true)
    (hmax : ∀ x ∈ l, p x = true → key x ≤ key f)
    (huniq : ∀ x ∈ l, p x = true → key x = key f → x = f) :
    l.find? p = some f := by
  induction l with
  | nil => cases hmem
  | cons a t ih =>
    rcases List.sorted_cons.mp hs with ⟨hhead, htail⟩
    cases hpa : p a
    · have hne : f ≠ a := fun he => by rw [he, hpa] at hpf; cases hpf
      have hmem2 : f ∈ t := by
        rcases List.mem_cons.mp hmem with h | h
        · exact absurd h hne
        · exact h
      rw [List.find?_cons_of_neg _ (by simp [hpa])]
      exact ih htail hmem2 (fun x hx hp => hmax x (List.mem_cons_of_mem _ hx) hp)
        (fun x hx hp hk => huniq x (List.mem_cons_of_mem _ hx) hp hk)
    · rw [List.find?_cons_of_pos _ hpa]
      have hle : key a ≤ key f := hmax a (List.mem_cons_self _ _) hpa
      have hge : key f ≤ key a := by
        rcases List.mem_cons.mp hmem with rfl | hmem2
        · exact Nat.le_refl _
        · exact hhead f hmem2
      exact congrArg some (huniq a (List.mem_cons_self _ _) hpa (Nat.le_antisymm hle hge))

/-! ### Auxiliary lemmas: the `Map` model -/

theorem mapSet_cons_eq {e : String × Nat} {t : List (String × Nat)} {k : String} {v : Nat}
    (he : (e.1 == k) = true) :
    mapSet (e :: t) k v = (k, v) :: t.map (fun x => if x.1 == k then (k, v) else x) := by
  unfold mapSet
  rw [if_pos (by simp [List.any_cons, he])]
  rw [List.map_cons, if_pos he]

theorem mapSet_cons_ne {e : String × Nat} {t : List (String × Nat)} {k : String} {v : Nat}
    (he : (e.1 == k) = false) :
    mapSet (e :: t) k v = e :: mapSet t k v := by
  unfold mapSet
  cases ht : t.any (fun x => x.1 == k)
  · rw [if_neg (by simp [List.any_cons, he, ht]), if_neg (by simp [ht])]
    simp
  · rw [if_pos (by simp [List.any_cons, ht]), if_pos (by simp [ht])]
    rw [List.map_cons, if_neg (by simp [he])]

theorem mapGet_mapSet_self (m : List (String × Nat)) (k : String) (v : Nat) :
    mapGet (mapSet m k v) k = some v := by
  induction m with
  | nil =>
    unfold mapSet mapGet
    simp
  | cons e t ih =>
    cases he : (e.1 == k)
    · rw [mapSet_cons_ne he]
      unfold mapGet
      rw [List.find?_cons_of_neg _ (by simp [he])]
      exact ih
    · rw [mapSet_cons_eq he]
      unfold mapGet
      rw [List.find?_cons_of_pos _ (by simp)]
      rfl

theorem filter_mapSet {m : List (String × Nat)} {k : String} {v : Nat}
    (hnd : (m.map Prod.fst).Nodup) :
    (mapSet m k v).filter (fun e => e.1 == k) = [(k, v)] := by
  induction m with
  | nil =>
    unfold mapSet
    simp
  | cons e t ih =>
    rw [List.map_cons] at hnd
    rcases List.nodup_cons.mp hnd with ⟨hhead, hnd2⟩
    cases he : (e.1 == k)
    · rw [mapSet_cons_ne he]
      rw [List.filter_cons_of_neg (by simp [he])]
      exact ih hnd2
    · have hek : e.1 = k := eq_of_beq he
      rw [mapSet_cons_eq he]
      rw [List.filter_cons_of_pos (by simp)]
      have hmap : t.map (fun x => if x.1 == k then (k, v) else x) = t := by
        conv_rhs => rw [← List.map_id t]
        apply List.map_congr_left
        intro x hx
        have hxk : (x.1 == k) = false := by
          cases hb : (x.1 == k)
          · rfl
          · have hx1 : x.1 = k := eq_of_beq hb
            have hm : e.1 ∈ List.map Prod.fst t := by
              rw [hek, ← hx1]
              exact List.mem_map_of_mem Prod.fst hx
            exact absurd hm hhead
        simp [hxk]
      rw [hmap]
      have hnil : t.filter (fun e => e.1 == k) = [] := by
        apply List.filter_eq_nil_iff.mpr
        intro x hx
        intro hb
        have hx1 : x.1 = k := eq_of_beq hb
        have hm : e.1 ∈ List.map Prod.fst t := by
          rw [hek, ← hx1]
          exact List.mem_map_of_mem Prod.fst hx
        exact absurd hm hhead
      rw [hnil]

theorem mapGet_mapDelete_self (m : List (String × Nat)) (k : String) :
    mapGet (mapDelete m k) k = none := by
  unfold mapGet
  have h : (mapDelete m k).find? (fun e => e.1 == k) = none := by
    apply List.find?_eq_none.mpr
    intro x hx
    rcases List.mem_filter.mp hx with ⟨_, hb⟩
    have hne : x.1 ≠ k := by simpa using hb
    simp [hne]
  rw [h]
  rfl

theorem mapGet_some_mem {m : List (String × Nat)} {k : String} {c : Nat}
    (h : mapGet m k = some c) : ∃ e ∈ m, e.2 = c := by
  unfold mapGet at h
  rcases Option.map_eq_some'.mp h with ⟨e, he, hc⟩
  exact ⟨e, List.mem_of_find?_eq_some he, hc⟩

/-! ### Auxiliary lemmas: the folder strategy -/

theorem sortedWs_perm (folders : List WorkspaceFolder) :
    (getSortedWorkspaces folders).Perm (folders.map toUri) :=
  List.perm_insertionSort byLen _

theorem mem_sortedWs {folders : List WorkspaceFolder} {w : String} :
    w ∈ getSortedWorkspaces folders ↔ w ∈ folders.map toUri :=
  (sortedWs_perm folders).mem_iff

theorem sortedWs_sorted (folders : List WorkspaceFolder) :
    List.Sorted (fun a b : String => a.data.length ≤ b.data.length)
      (getSortedWorkspaces folders) :=
  List.sorted_insertionSort byLen _

theorem sortedWs_find_min {folders : List WorkspaceFolder} {p : String → Bool} {e : String}
    (h : (getSortedWorkspaces folders).find? p = some e) :
    ∀ x ∈ getSortedWorkspaces folders, p x = true → e.data.length ≤ x.data.length :=
  find?_min_key (fun s => s.data.length) (sortedWs_sorted folders) h

theorem getWorkspaceFolder_self {folders : List WorkspaceFolder}
    (hnd : (folders.map toUri).Nodup) {f : WorkspaceFolder} (hf : f ∈ folders) :
    getWorkspaceFolder folders (toUri f) = some f := by
  have key : ∀ g ∈ folders, jsStartsWith (toUri f) (toUri g) = true →
      g = f ∨ ((toUri g).data.length < (toUri f).data.length ∧
               g.uri.data.length ≤ f.uri.data.length) := by
    intro g hg hp
    have hpre : (toUri g).data <+: (toUri f).data := jsStartsWith_iff.mp hp
    by_cases heq : toUri g = toUri f
    · exact Or.inl (toUri_inj hnd g hg f hf heq)
    · right
      have hne : (toUri g).data ≠ (toUri f).data := fun h => heq (String.data_inj h)
      have hlt : (toUri g).data.length < (toUri f).data.length := by
        rcases Nat.lt_or_ge (toUri g).data.length (toUri f).data.length with h | h
        · exact h
        · exact absurd (List.IsPrefix.eq_of_length_le hpre h) hne
      have h1 := uri_len_le_toUri g
      have h2 := toUri_len_le_succ f
      exact ⟨hlt, by omega⟩
  unfold getWorkspaceFolder
  apply find?_max_first (fun x => x.uri.data.length)
  · exact List.sorted_insertionSort byUriLenDesc folders
  · exact (List.perm_insertionSort byUriLenDesc folders).mem_iff.mpr hf
  · exact jsStartsWith_self _
  · intro x hx hp
    have hxf : x ∈ folders := (List.perm_insertionSort byUriLenDesc folders).mem_iff.mp hx
    rcases key x hxf hp with rfl | ⟨_, hle⟩
    · exact Nat.le_refl _
    · exact hle
  · intro x hx hp hkey
    have hxf : x ∈ folders := (List.perm_insertionSort byUriLenDesc folders).mem_iff.mp hx
    rcases key x hxf hp with rfl | ⟨hlt, _⟩
    · rfl
    · exfalso
      have hkey2 : x.uri.data.length = f.uri.data.length := hkey
      have hpre : (toUri x).data <+: (toUri f).data := jsStartsWith_iff.mp hp
      have hux := uri_len_le_toUri x
      have hux2 := toUri_len_le_succ x
      have huf := uri_len_le_toUri f
      have huf2 := toUri_len_le_succ f
      rcases toUri_dichotomy x with ⟨hx1, hx2⟩ | ⟨hx1, _⟩
      · rcases toUri_dichotomy f with ⟨hf1, _⟩ | ⟨hf1, hf3⟩
        · rw [hx1, hf1] at hlt
          omega
        · have hlenx : (toUri x).data.length = f.uri.data.length := by
            rw [hx1, hkey]
          have htake : (toUri x).data = ((toUri f).data).take f.uri.data.length := by
            rw [← hlenx]
            exact List.prefix_iff_eq_take.mp hpre
          have htake2 : ((toUri f).data).take f.uri.data.length = f.uri.data := by
            rw [hf1]
            exact List.take_left _ _
          have hxu : x.uri.data = f.uri.data := by
            rw [← hx1, htake, htake2]
          rw [hxu] at hx2
          exact hf3 hx2
      · have hlen : (toUri x).data.length = x.uri.data.length + 1 := by
          rw [hx1]
          simp
        omega

theorem getOuterMost_eq {folders : List WorkspaceFolder}
    (hnd : (folders.map toUri).Nodup) {w : String}
    (hw : w ∈ getSortedWorkspaces folders) :
    ∃ g, g ∈ folders ∧
      (getSortedWorkspaces folders).find? (fun e => jsStartsWith w e) = some (toUri g) ∧
      getOuterMostWorkspaceFolder folders (getSortedWorkspaces folders) w = g := by
  obtain ⟨e, he⟩ : ∃ e, (getSortedWorkspaces folders).find? (fun e => jsStartsWith w e) = some e := by
    cases hfe : (getSortedWorkspaces folders).find? (fun e => jsStartsWith w e) with
    | none => exact absurd (jsStartsWith_self w) (List.find?_eq_none.mp hfe w hw)
    | some e => exact ⟨e, rfl⟩
  have hemem : e ∈ getSortedWorkspaces folders := List.mem_of_find?_eq_some he
  rcases List.mem_map.mp (mem_sortedWs.mp hemem) with ⟨g, hg, hge⟩
  refine ⟨g, hg, ?_, ?_⟩
  · rw [he, hge]
  · unfold getOuterMostWorkspaceFolder
    rw [he]
    show (getWorkspaceFolder folders e).getD junkFolder = g
    rw [← hge, getWorkspaceFolder_self hnd hg]
    rfl

/-! ### Auxiliary lemmas: the project service readiness gate -/

theorem serviceInv_initial (declared : List String) (enabled : Bool) :
    serviceInv declared (initialService declared enabled) := by
  refine ⟨List.nodup_dedup declared, ?_, ?_⟩
  · intro i
    simp [initialService, List.mem_dedup]
  · intro h
    simp [initialService] at h

theorem serviceInv_register {declared : List String} {st : ServiceState}
    (hinv : serviceInv declared st) (strat : Strategy) :
    serviceInv declared (registerStrategy st strat).1 := by
  rcases hinv with ⟨hnd, hiff, hready⟩
  unfold registerStrategy
  by_cases hdup : (mapGet st.strategies strat.id).isNone = true
  · rw [if_pos hdup]
    have hndp : (registerPending st strat).Nodup := by
      unfold registerPending
      by_cases hp : 0 < st.pendingExternal.length
      · rw [if_pos hp]
        exact hnd.erase _
      · rw [if_neg hp]
        exact hnd
    have hiff2 : ∀ i, i ∈ registerPending st strat ↔
        (i ∈ declared ∧ i ∉ st.registeredEver ++ [strat.id]) := by
      intro i
      unfold registerPending
      by_cases hp : 0 < st.pendingExternal.length
      · rw [if_pos hp, hnd.mem_erase_iff]
        constructor
        · rintro ⟨hne, hmem⟩
          rcases (hiff i).mp hmem with ⟨hd, hre⟩
          refine ⟨hd, fun hm => ?_⟩
          rcases List.mem_append.mp hm with h | h
          · exact hre h
          · exact hne (by simpa using h)
        · rintro ⟨hd, hnm⟩
          have hre : i ∉ st.registeredEver := fun h => hnm (List.mem_append.mpr (Or.inl h))
          have hne : i ≠ strat.id := fun h => hnm (List.mem_append.mpr (Or.inr (by simp [h])))
          exact ⟨hne, (hiff i).mpr ⟨hd, hre⟩⟩
      · rw [if_neg hp]
        have hemp : st.pendingExternal = [] := by
          cases hq : st.pendingExternal with
          | nil => rfl
          | cons a t => rw [hq] at hp; exact absurd (by simp) hp
        constructor
        · intro hmem
          rw [hemp] at hmem
          cases hmem
        · rintro ⟨hd, hnm⟩
          have hre : i ∉ st.registeredEver := fun h => hnm (List.mem_append.mpr (Or.inl h))
          have hm : i ∈ st.pendingExternal := (hiff i).mpr ⟨hd, hre⟩
          rw [hemp] at hm
          cases hm
    have hrd : registerReady st strat = true → registerPending st strat = [] := by
      unfold registerReady
      by_cases hc : 0 < st.pendingExternal.length ∧ (registerPending st strat).isEmpty = true
      · rw [if_pos hc]
        intro _
        exact List.isEmpty_iff.mp hc.2
      · rw [if_neg hc]
        intro hr
        have hemp : st.pendingExternal = [] := hready hr
        unfold registerPending
        rw [hemp]
        simp
    exact ⟨hndp, hiff2, hrd⟩
  · rw [if_neg hdup]
    exact ⟨hnd, hiff, hready⟩

theorem serviceInv_step {declared : List String} {st : ServiceState}
    (hinv : serviceInv declared st) (e : ServiceEvent) :
    serviceInv declared (serviceStep st e) := by
  cases e with
  | register strat => exact serviceInv_register hinv strat
  | initializeCompleted =>
    rcases hinv with ⟨hnd, hiff, hready⟩
    unfold serviceStep
    by_cases hp : st.pendingExternal.isEmpty = true
    · rw [if_pos hp]
      exact ⟨hnd, hiff, fun _ => List.isEmpty_iff.mp hp⟩
    · rw [if_neg hp]
      exact ⟨hnd, hiff, hready⟩

theorem serviceInv_run {declared : List String} {st : ServiceState}
    (hinv : serviceInv declared st) (events : List ServiceEvent) :
    serviceInv declared (serviceRun st events) := by
  induction events generalizing st with
  | nil => exact hinv
  | cons e es ih => exact ih (serviceInv_step hinv e)

/-! ### Claim theorems -/

/-- C10: every access to the Routing Context's `client` getter throws the
error "Invalid access. Context.client is currently not implemented"; in no
state does reading this property return a client instance. -/
theorem client_getter_always_throws (s : ContextState) :
    clientGetter s
      = Except.error "Invalid access. Context.client is currently not implemented" :=
  rfl

/-- C9: `Array.indexOf` never returns a value strictly below `-1`, so the
guard of the unmatched-document removal branch in `didCloseTextDocument` is
unsatisfiable and, on close of a clangd document whose location resolves to
no project, the unmatched-documents list is left unchanged. -/
theorem didClose_never_prunes_unmatched :
    (∀ (l : List TextDocument) (d : TextDocument), ¬ jsIndexOfDocument l d < -1) ∧
    (∀ (s : ContextState) (resolve : TextDocument → Option Project)
       (ws : List TextDocument) (d : TextDocument), resolve d = none →
       (didCloseTextDocument s resolve ws d).unmatchedDocuments = s.unmatchedDocuments) := by
  have hidx : ∀ (l : List TextDocument) (d : TextDocument), ¬ jsIndexOfDocument l d < -1 := by
    intro l d
    unfold jsIndexOfDocument
    cases h : l.findIdx? (fun x => x == d) with
    | none => decide
    | some i =>
      show ¬ (i : Int) < -1
      omega
  refine ⟨hidx, ?_⟩
  intro s resolve ws d hres
  unfold didCloseTextDocument
  by_cases hdoc : isClangdDocument d = true
  · rw [if_neg (by simp [hdoc]), hres]
    show (if jsIndexOfDocument s.unmatchedDocuments d < -1 then
            { s with unmatchedDocuments :=
                spliceFrom s.unmatchedDocuments (jsIndexOfDocument s.unmatchedDocuments d) }
          else s).unmatchedDocuments = s.unmatchedDocuments
    rw [if_neg (hidx _ _)]
  · rw [if_pos (by simp [Bool.not_eq_true] at hdoc ⊢; exact hdoc)]

/-- C9 witness: the close handler applied at a concrete state and document
resolving to no project leaves the unmatched list unchanged, and `indexOf`
on a concrete list is not below `-1`. -/
theorem didClose_never_prunes_unmatched_witness :
    (¬ jsIndexOfDocument [] c1Doc < -1) ∧
    (didCloseTextDocument c7State (fun _ => none) [] c1Doc).unmatchedDocuments
      = c7State.unmatchedDocuments :=
  ⟨didClose_never_prunes_unmatched.1 [] c1Doc,
   didClose_never_prunes_unmatched.2 c7State (fun _ => none) [] c1Doc rfl⟩

/-- C3 (code bug, evaluation at the failing input): with the project
`file:///p` pinned as the override and a `ProjectsChange` whose removed
list holds a freshly constructed `Project` value with the same id (a
distinct object), the handler leaves the override pinned, disposes no
client and removes nothing — `Array.includes` compares object identity, so
the removal is never detected for a reconstructed value. -/
theorem override_removal_by_identity_eval :
    (onProjectsChangedHandler c3State c3Change).activeProjectOverride
        = some { ref := 0, id := "file:///p", uri := "file:///p" } ∧
    (onProjectsChangedHandler c3State c3Change).disposedClients = [] ∧
    mapGet (onProjectsChangedHandler c3State c3Change).clients "file:///p" = some 0 := by
  decide

/-- C6 (code bug, evaluation at the failing input): the build directory
`/proj/build` (with `compile_commands.json` present) maps to the discovered
project `file:///proj`, yet the `onDidDelete` handler removes nothing and
emits no event: `indexOf` applied to a freshly constructed `Project`
returns `-1`. -/
theorem build_dir_delete_removes_nothing_eval :
    getProjectDirectory c6Fs "/proj/build" = some "file:///proj" ∧
    (cmakeOnDidDelete c6State c6Fs "/proj/build").projects = c6State.projects ∧
    (cmakeOnDidDelete c6State c6Fs "/proj/build").events = [] := by
  decide

/-- C7 counterexample: in the micro-step trace of `disposeClient` at a
concrete state there is an intermediate state (the second one) in which the
registry entry is already removed while its client is not yet disposed —
the claimed dispose-before-removal order does not hold. -/
theorem dispose_before_removal_refuted :
    (disposeClientTrace c7State "p").map (fun t => (mapGet t.clients "p", t.disposedClients))
      = [(some 0, []), (none, []), (none, [0])] := by
  decide

/-- C7 (amended): `disposeClient` removes the registry entry first and then
disposes the client, synchronously within the same call; afterwards the
entry is gone and the client disposed, and at no point does the registry
still hold the client after its disposal. -/
theorem disposeClient_removes_then_disposes (s : ContextState) (id : String) (c : Nat)
    (hc : mapGet s.clients id = some c) (hdis : c ∉ s.disposedClients) :
    ∃ s1 s2, disposeClientTrace s id = [s, s1, s2] ∧
      mapGet s1.clients id = none ∧ c ∉ s1.disposedClients ∧
      mapGet s2.clients id = none ∧ c ∈ s2.disposedClients ∧
      (∀ t ∈ disposeClientTrace s id, c ∈ t.disposedClients → mapGet t.clients id = none) := by
  refine ⟨{ s with clients := mapDelete s.clients id },
          { s with clients := mapDelete s.clients id,
                   disposedClients := c :: s.disposedClients }, ?_, ?_, ?_, ?_, ?_, ?_⟩
  · unfold disposeClientTrace
    rw [hc]
  · exact mapGet_mapDelete_self _ _
  · exact hdis
  · exact mapGet_mapDelete_self _ _
  · exact List.mem_cons_self _ _
  · intro t ht hmem
    unfold disposeClientTrace at ht
    rw [hc] at ht
    simp only [List.mem_cons, List.not_mem_nil, or_false] at ht
    rcases ht with rfl | rfl | rfl
    · exact absurd hmem hdis
    · exact absurd hmem hdis
    · exact mapGet_mapDelete_self _ _

/-- C7 witness: the amended dispose order at the concrete one-client state. -/
theorem disposeClient_removes_then_disposes_witness :
    ∃ s1 s2, disposeClientTrace c7State "p" = [c7State, s1, s2] ∧
      mapGet s1.clients "p" = none ∧ 0 ∉ s1.disposedClients ∧
      mapGet s2.clients "p" = none ∧ 0 ∈ s2.disposedClients ∧
      (∀ t ∈ disposeClientTrace c7State "p", 0 ∈ t.disposedClients →
        mapGet t.clients "p" = none) :=
  disposeClient_removes_then_disposes c7State "p" 0 (by decide) (by decide)

/-- C1 counterexample: at a state that already has a live client (token `5`)
for `file:///p`, opening a clangd document resolving to that project does
not reuse the client: afterwards the registry maps the id to the freshly
created client (token `6`). -/
theorem didOpen_reuses_client_refuted :
    mapGet c1State.clients "file:///p" = some 5 ∧
    mapGet (didOpenTextDocument c1State c1Resolve none c1Doc).clients "file:///p" = some 6 ∧
    (didOpenTextDocument c1State c1Resolve none c1Doc).clients.filter
        (fun e => e.1 == "file:///p") = [("file:///p", 6)] := by
  decide

/-- C1 (amended): for every open event of a clangd document whose location
resolves to a project P, the Routing Context afterwards has exactly one
client registered under P's id, namely a freshly created one; a client
already present for P is replaced by the new instance (not reused) and is
not disposed. -/
theorem didOpen_always_creates_fresh (s : ContextState)
    (resolve : TextDocument → Option Project) (currentProject : Option Project)
    (d : TextDocument) (p : Project)
    (hdoc : isClangdDocument d = true) (hres : resolve d = some p)
    (hkeys : (s.clients.map Prod.fst).Nodup)
    (hrefs : ∀ e ∈ s.clients, e.2 < s.nextClientRef) :
    (didOpenTextDocument s resolve currentProject d).clients.filter (fun e => e.1 == p.id)
        = [(p.id, s.nextClientRef)] ∧
    (didOpenTextDocument s resolve currentProject d).disposedClients = s.disposedClients ∧
    (∀ c, mapGet s.clients p.id = some c → c ≠ s.nextClientRef) := by
  have hopen : didOpenTextDocument s resolve currentProject d = createClient s (some p) := by
    unfold didOpenTextDocument
    rw [if_neg (by simp [hdoc]), hres]
  refine ⟨?_, ?_, ?_⟩
  · rw [hopen]
    exact filter_mapSet hkeys
  · rw [hopen]
    rfl
  · intro c hc
    rcases mapGet_some_mem hc with ⟨e, he, hce⟩
    have hlt := hrefs e he
    omega

/-- C1 witness: the amended behavior at the concrete one-client state. -/
theorem didOpen_always_creates_fresh_witness :
    ((didOpenTextDocument c1State c1Resolve none c1Doc).clients.filter
        (fun e => e.1 == c1Project.id) = [(c1Project.id, c1State.nextClientRef)]) ∧
    (didOpenTextDocument c1State c1Resolve none c1Doc).disposedClients
        = c1State.disposedClients ∧
    (∀ c, mapGet c1State.clients c1Project.id = some c → c ≠ c1State.nextClientRef) :=
  didOpen_always_creates_fresh c1State c1Resolve none c1Doc c1Project
    (by decide) rfl (by decide) (by decide)

/-- C8: `registerStrategy` with an already registered id returns failure
without throwing, appends the warning to the log and leaves the registry
mapping the id to the previous instance; with a fresh id it stores the
strategy, returns success and, if the id was the last pending externally
declared one, resolves the readiness gate. -/
theorem registerStrategy_spec (st : ServiceState) (strat : Strategy) :
    (∀ t, mapGet st.strategies strat.id = some t →
      (registerStrategy st strat).2 = false ∧
      (registerStrategy st strat).1.strategies = st.strategies ∧
      mapGet (registerStrategy st strat).1.strategies strat.id = some t ∧
      (registerStrategy st strat).1.log = st.log ++ [duplicateStrategyMsg]) ∧
    (mapGet st.strategies strat.id = none →
      (registerStrategy st strat).2 = true ∧
      mapGet (registerStrategy st strat).1.strategies strat.id = some strat.ref ∧
      (st.pendingExternal ≠ [] → st.pendingExternal.erase strat.id = [] →
        (registerStrategy st strat).1.ready = true)) := by
  constructor
  · intro t ht
    have hdup : (mapGet st.strategies strat.id).isNone = false := by
      rw [ht]
      rfl
    unfold registerStrategy
    rw [if_neg (by simp [hdup])]
    exact ⟨rfl, rfl, ht, rfl⟩
  · intro hnone
    have hdup : (mapGet st.strategies strat.id).isNone = true := by
      rw [hnone]
      rfl
    unfold registerStrategy
    rw [if_pos hdup]
    refine ⟨rfl, mapGet_mapSet_self _ _ _, ?_⟩
    intro hne hemp
    have hpos : 0 < st.pendingExternal.length := List.length_pos.mpr hne
    have hcond : 0 < st.pendingExternal.length ∧ (registerPending st strat).isEmpty = true := by
      refine ⟨hpos, ?_⟩
      unfold registerPending
      rw [if_pos hpos, hemp]
      rfl
    show registerReady st strat = true
    unfold registerReady
    rw [if_pos hcond]

/-- C8 witness: a duplicate registration (id `dup`) fails and keeps the
previous instance; a registration satisfying the last pending external id
(`s`) succeeds and resolves the readiness gate. -/
theorem registerStrategy_spec_witness :
    ((registerStrategy c8DupState ⟨4, "dup"⟩).2 = false ∧
     (registerStrategy c8DupState ⟨4, "dup"⟩).1.strategies = c8DupState.strategies ∧
     mapGet (registerStrategy c8DupState ⟨4, "dup"⟩).1.strategies "dup" = some 3 ∧
     (registerStrategy c8DupState ⟨4, "dup"⟩).1.log
        = c8DupState.log ++ [duplicateStrategyMsg]) ∧
    ((registerStrategy c8NewState ⟨5, "s"⟩).2 = true ∧
     mapGet (registerStrategy c8NewState ⟨5, "s"⟩).1.strategies "s" = some 5 ∧
     (registerStrategy c8NewState ⟨5, "s"⟩).1.ready = true) := by
  constructor
  · exact (registerStrategy_spec c8DupState ⟨4, "dup"⟩).1 3 (by decide)
  · have h := (registerStrategy_spec c8NewState ⟨5, "s"⟩).2 (by decide)
    exact ⟨h.1, h.2.1, h.2.2 (by decide) (by decide)⟩

/-- C2: along any sequence of service events, once `resolve` returns (it
first awaits the readiness gate) every externally declared strategy id has
been registered — no resolution observes a partially registered strategy
set; and with no declared external ids, the completion of `initialize()`
releases the gate. -/
theorem resolve_awaits_readiness (declared : List String) (enabled : Bool)
    (events : List ServiceEvent) (activeResolve : String → Option Project)
    (fileUri : String) :
    (resolveService (serviceRun (initialService declared enabled) events)
        activeResolve fileUri ≠ none →
      ∀ i ∈ declared, i ∈ (serviceRun (initialService declared enabled) events).registeredEver) ∧
    (∀ (events2 : List ServiceEvent) (enabled2 : Bool),
      (serviceStep (serviceRun (initialService [] enabled2) events2)
        ServiceEvent.initializeCompleted).ready = true) := by
  constructor
  · intro hret i hi
    have hinv : serviceInv declared (serviceRun (initialService declared enabled) events) :=
      serviceInv_run (serviceInv_initial declared enabled) events
    have hready : (serviceRun (initialService declared enabled) events).ready = true := by
      cases hr : (serviceRun (initialService declared enabled) events).ready
      · exfalso
        apply hret
        unfold resolveService
        rw [if_neg (by simp [hr])]
      · rfl
    have hemp : (serviceRun (initialService declared enabled) events).pendingExternal = [] :=
      hinv.2.2 hready
    by_contra hnm
    have hm : i ∈ (serviceRun (initialService declared enabled) events).pendingExternal :=
      (hinv.2.1 i).mpr ⟨hi, hnm⟩
    rw [hemp] at hm
    cases hm
  · intro events2 enabled2
    have hinv : serviceInv [] (serviceRun (initialService [] enabled2) events2) :=
      serviceInv_run (serviceInv_initial [] enabled2) events2
    have hemp : (serviceRun (initialService [] enabled2) events2).pendingExternal = [] := by
      apply List.eq_nil_iff_forall_not_mem.mpr
      intro a ha
      rcases (hinv.2.1 a).mp ha with ⟨h, _⟩
      cases h
    have hie : (serviceRun (initialService [] enabled2) events2).pendingExternal.isEmpty = true := by
      rw [hemp]
      rfl
    unfold serviceStep
    rw [if_pos hie]

/-- C2 witness: with the single declared external id `ext`, after its
registration the gate is open, `resolve` returns, and `ext` has been
registered; with no declared ids, `initialize()` completion opens the
gate. -/
theorem resolve_awaits_readiness_witness :
    (resolveService (serviceRun (initialService ["ext"] false)
        [ServiceEvent.register ⟨0, "ext"⟩]) (fun _ => none) "file:///x" ≠ none) ∧
    "ext" ∈ (serviceRun (initialService ["ext"] false)
        [ServiceEvent.register ⟨0, "ext"⟩]).registeredEver ∧
    (serviceStep (serviceRun (initialService [] false) [])
        ServiceEvent.initializeCompleted).ready = true := by
  refine ⟨by decide, ?_, ?_⟩
  · exact (resolve_awaits_readiness ["ext"] false [ServiceEvent.register ⟨0, "ext"⟩]
      (fun _ => none) "file:///x").1 (by decide) "ext" (by decide)
  · exact (resolve_awaits_readiness [] false [] (fun _ => none) "x").2 [] false

/-- C4 counterexample: in the workspace with nested folders `/a` and
`/a/sub` the initialized projects list has two entries, both with id
`file:///a` — the nested folder does contribute an additional entry and two
entries share an id. -/
theorem initializeProjects_duplicates_refuted :
    (initializeProjects foldersAB).map (·.id) = ["file:///a", "file:///a"] ∧
    ¬ ((initializeProjects foldersAB).map (·.id)).Nodup := by
  decide

/-- C4 (amended): the folder strategy's initialized projects list has
exactly one entry per workspace folder (each mapped to its outermost
ancestor), so a nested folder contributes a duplicate entry for its
ancestor; when no folder's normalized location is a prefix of another's,
the ids are exactly the folder uris and pairwise distinct. -/
theorem initializeProjects_per_folder (folders : List WorkspaceFolder) :
    (initializeProjects folders).length = folders.length ∧
    ((folders.map toUri).Nodup →
     (∀ f ∈ folders, ∀ g ∈ folders, jsStartsWith (toUri f) (toUri g) = true → g = f) →
     ((initializeProjects folders).map (·.id)).Nodup ∧
     ((initializeProjects folders).map (·.id)).Perm (folders.map (·.uri))) := by
  constructor
  · unfold initializeProjects
    rw [List.length_map, (sortedWs_perm folders).length_eq, List.length_map]
  · intro hnd hflat
    have hOM : ∀ f ∈ folders,
        getOuterMostWorkspaceFolder folders (getSortedWorkspaces folders) (toUri f) = f := by
      intro f hf
      have hfind : (getSortedWorkspaces folders).find? (fun e => jsStartsWith (toUri f) e)
          = some (toUri f) := by
        apply find?_eq_of_unique
        · exact mem_sortedWs.mpr (List.mem_map_of_mem toUri hf)
        · exact jsStartsWith_self _
        · intro x hx hp
          rcases List.mem_map.mp (mem_sortedWs.mp hx) with ⟨g, hg, rfl⟩
          rw [hflat f hf g hg hp]
      unfold getOuterMostWorkspaceFolder
      rw [hfind]
      show (getWorkspaceFolder folders (toUri f)).getD junkFolder = f
      rw [getWorkspaceFolder_self hnd hf]
      rfl
    have hid : (initializeProjects folders).map (·.id)
        = (getSortedWorkspaces folders).map
            (fun w => (getOuterMostWorkspaceFolder folders (getSortedWorkspaces folders) w).uri) := by
      unfold initializeProjects
      rw [List.map_map]
      rfl
    have hp1 : ((getSortedWorkspaces folders).map
          (fun w => (getOuterMostWorkspaceFolder folders (getSortedWorkspaces folders) w).uri)).Perm
        ((folders.map toUri).map
          (fun w => (getOuterMostWorkspaceFolder folders (getSortedWorkspaces folders) w).uri)) :=
      (sortedWs_perm folders).map _
    have hp2 : (folders.map toUri).map
          (fun w => (getOuterMostWorkspaceFolder folders (getSortedWorkspaces folders) w).uri)
        = folders.map (·.uri) := by
      rw [List.map_map]
      apply List.map_congr_left
      intro f hf
      show (getOuterMostWorkspaceFolder folders (getSortedWorkspaces folders) (toUri f)).uri = f.uri
      rw [hOM f hf]
    rw [hp2] at hp1
    rw [hid]
    have hndu : (folders.map (·.uri)).Nodup := by
      apply (List.nodup_map_iff_inj_on (List.Nodup.of_map _ hnd)).mpr
      intro x hx y hy hxy
      exact toUri_inj hnd x hx y hy (toUri_congr hxy)
    exact ⟨hp1.nodup_iff.mpr hndu, hp1⟩

/-- C4 witness: two non-nested folders produce two projects with distinct
ids, a permutation of the folder uris. -/
theorem initializeProjects_per_folder_witness :
    (initializeProjects foldersFlat).length = foldersFlat.length ∧
    ((initializeProjects foldersFlat).map (·.id)).Nodup ∧
    ((initializeProjects foldersFlat).map (·.id)).Perm (foldersFlat.map (·.uri)) :=
  ⟨(initializeProjects_per_folder foldersFlat).1,
   (initializeProjects_per_folder foldersFlat).2 (by decide) (by decide)⟩

/-- C5 counterexample: with folders `/a`, `/ab`, `/ab/c`, the owning folder
of `/ab/c/x.cpp` under the spec's trailing-slash-normalized prefix rule is
`/ab`, yet `resolve` returns the project rooted at `/a` (whose raw uri
string is a prefix of the location without being a path ancestor) — the
file does not resolve to the project of its outermost ancestor folder. -/
theorem wsResolve_outermost_ancestor_refuted :
    specOwningFolder foldersAnomaly "file:///ab/c/x.cpp" = some "file:///ab/" ∧
    toUri { name := "ab", uri := "file:///ab" } = "file:///ab/" ∧
    wsResolve (initializeProjects foldersAnomaly) "file:///ab/c/x.cpp"
      = some { ref := 0, id := "file:///a", label := some "a", uri := "file:///a" } ∧
    wsCreateProject { name := "ab", uri := "file:///ab" }
      = { ref := 0, id := "file:///ab", label := some "ab", uri := "file:///ab" } ∧
    ({ ref := 0, id := "file:///a", label := some "a", uri := "file:///a" } : Project)
      ≠ { ref := 0, id := "file:///ab", label := some "ab", uri := "file:///ab" } := by
  decide

/-- C5 (amended): opening `/a/sub/x.cpp` in the workspace with folders `/a`
and `/a/sub` resolves to the project rooted at `/a`; in general, a file
resolves to the project of its outermost ancestor folder (the first entry
of the length-sorted trailing-slash-normalized folder list that prefixes
the location) provided every folder whose raw location string prefixes the
file's location is a genuine ancestor (its normalized location prefixes it
too) and the normalized folder locations are pairwise distinct. -/
theorem wsResolve_outermost_ancestor (folders : List WorkspaceFolder) (fileUri : String)
    (e : String) (hnd : (folders.map toUri).Nodup)
    (hanom : ∀ f ∈ folders, jsStartsWith fileUri f.uri = true →
      jsStartsWith fileUri (toUri f) = true)
    (hown : specOwningFolder folders fileUri = some e) :
    (∃ f, f ∈ folders ∧ toUri f = e ∧
      wsResolve (initializeProjects folders) fileUri = some (wsCreateProject f)) ∧
    wsResolve (initializeProjects foldersAB) "file:///a/sub/x.cpp"
      = some { ref := 0, id := "file:///a", label := some "a", uri := "file:///a" } := by
  refine ⟨?_, by decide⟩
  have hown2 : (getSortedWorkspaces folders).find? (fun x => jsStartsWith fileUri x)
      = some e := hown
  have hemem : e ∈ getSortedWorkspaces folders := List.mem_of_find?_eq_some hown2
  have hepre : jsStartsWith fileUri e = true := List.find?_some hown2
  have hepred : e.data <+: fileUri.data := jsStartsWith_iff.mp hepre
  have hmin : ∀ x ∈ getSortedWorkspaces folders, jsStartsWith fileUri x = true →
      e.data.length ≤ x.data.length := sortedWs_find_min hown2
  have K2 : ∀ w ∈ getSortedWorkspaces folders,
      jsStartsWith fileUri
        (getOuterMostWorkspaceFolder folders (getSortedWorkspaces folders) w).uri = true →
      getOuterMostWorkspaceFolder folders (getSortedWorkspaces folders) w ∈ folders ∧
      toUri (getOuterMostWorkspaceFolder folders (getSortedWorkspaces folders) w) = e := by
    intro w hw hp
    rcases getOuterMost_eq hnd hw with ⟨g, hg, hfindw, hOMw⟩
    rw [hOMw] at hp ⊢
    refine ⟨hg, ?_⟩
    have hgslash : jsStartsWith fileUri (toUri g) = true := hanom g hg hp
    have hgpre : (toUri g).data <+: fileUri.data := jsStartsWith_iff.mp hgslash
    have hminw : ∀ x ∈ getSortedWorkspaces folders, jsStartsWith w x = true →
        (toUri g).data.length ≤ x.data.length := sortedWs_find_min hfindw
    have hgw : jsStartsWith w (toUri g) = true := List.find?_some hfindw
    have hgwpre : (toUri g).data <+: w.data := jsStartsWith_iff.mp hgw
    rcases List.prefix_or_prefix_of_prefix hepred hgpre with hcase | hcase
    · have hew : e.data <+: w.data := hcase.trans hgwpre
      have h1 : (toUri g).data.length ≤ e.data.length :=
        hminw e hemem (jsStartsWith_iff.mpr hew)
      have heq : e.data = (toUri g).data := List.IsPrefix.eq_of_length_le hcase h1
      exact (String.data_inj heq).symm
    · have hgmem : toUri g ∈ getSortedWorkspaces folders :=
        mem_sortedWs.mpr (List.mem_map_of_mem toUri hg)
      have h1 : e.data.length ≤ (toUri g).data.length := hmin (toUri g) hgmem hgslash
      have heq : (toUri g).data = e.data := List.IsPrefix.eq_of_length_le hcase h1
      exact String.data_inj heq
  have hprede : jsStartsWith fileUri
      (getOuterMostWorkspaceFolder folders (getSortedWorkspaces folders) e).uri = true := by
    rcases getOuterMost_eq hnd hemem with ⟨g0, hg0, hfinde, hOMe⟩
    have hg0pre : (toUri g0).data <+: e.data := jsStartsWith_iff.mp (List.find?_some hfinde)
    have hg0mem : toUri g0 ∈ getSortedWorkspaces folders :=
      mem_sortedWs.mpr (List.mem_map_of_mem toUri hg0)
    have hg0file : (toUri g0).data <+: fileUri.data := hg0pre.trans hepred
    have h1 : e.data.length ≤ (toUri g0).data.length :=
      hmin (toUri g0) hg0mem (jsStartsWith_iff.mpr hg0file)
    have heg0 : (toUri g0).data = e.data := List.IsPrefix.eq_of_length_le hg0pre h1
    rw [hOMe]
    apply jsStartsWith_iff.mpr
    apply (uri_isPre_toUri g0).trans
    rw [heg0]
    exact hepred
  have hmap : wsResolve (initializeProjects folders) fileUri
      = ((getSortedWorkspaces folders).find?
          ((fun project : Project => jsStartsWith fileUri project.uri) ∘
            (fun w => wsCreateProject
              (getOuterMostWorkspaceFolder folders (getSortedWorkspaces folders) w)))).map
          (fun w => wsCreateProject
            (getOuterMostWorkspaceFolder folders (getSortedWorkspaces folders) w)) := by
    unfold wsResolve initializeProjects
    exact List.find?_map _ _
  obtain ⟨w₀, hw₀⟩ : ∃ w₀, (getSortedWorkspaces folders).find?
      ((fun project : Project => jsStartsWith fileUri project.uri) ∘
        (fun w => wsCreateProject
          (getOuterMostWorkspaceFolder folders (getSortedWorkspaces folders) w))) = some w₀ := by
    cases hf : (getSortedWorkspaces folders).find?
        ((fun project : Project => jsStartsWith fileUri project.uri) ∘
          (fun w => wsCreateProject
            (getOuterMostWorkspaceFolder folders (getSortedWorkspaces folders) w))) with
    | none => exact absurd hprede (by simpa using List.find?_eq_none.mp hf e hemem)
    | some w => exact ⟨w, rfl⟩
  have hw₀mem : w₀ ∈ getSortedWorkspaces folders := List.mem_of_find?_eq_some hw₀
  have hw₀p0 := List.find?_some hw₀
  have hw₀p : jsStartsWith fileUri
      (getOuterMostWorkspaceFolder folders (getSortedWorkspaces folders) w₀).uri = true := hw₀p0
  rcases K2 w₀ hw₀mem hw₀p with ⟨hmem, htoUri⟩
  refine ⟨getOuterMostWorkspaceFolder folders (getSortedWorkspaces folders) w₀,
    hmem, htoUri, ?_⟩
  rw [hmap, hw₀]
  rfl

/-- C5 witness: the amended resolution at the nested workspace `/a`,
`/a/sub` resolving `/a/sub/x.cpp` to the project of the outermost folder
`/a`. -/
theorem wsResolve_outermost_ancestor_witness :
    (∃ f, f ∈ foldersAB ∧ toUri f = "file:///a/" ∧
      wsResolve (initializeProjects foldersAB) "file:///a/sub/x.cpp"
        = some (wsCreateProject f)) ∧
    wsResolve (initializeProjects foldersAB) "file:///a/sub/x.cpp"
      = some { ref := 0, id := "file:///a", label := some "a", uri := "file:///a" } :=
  wsResolve_outermost_ancestor foldersAB "file:///a/sub/x.cpp" "file:///a/"
    (by decide) (by decide) (by decide)

end Clangd


